import Mathlib

/-!
Shallow embedding of the core logic of the `my-pdf` web application
(`src/lib/PdfOperations.svelte`): the page-range parser `parsePageRanges`,
the file-set management operations (`processNewFiles`, `removeFile`,
`handleDrop`, `resetAll`, `resetPdfState`, `updateSplitInfo`), the split
entry point `splitPdfAtPages`, and the merge-download filename computation
of `downloadMergedPdf`.

JavaScript-specific behaviour is modelled explicitly:
  * `parseInt(s, 10)` parses an optional sign followed by the longest
    leading run of decimal digits and yields NaN when there is none;
    NaN is modelled as `Option.none`.
  * `Array.prototype.splice` clamps negative start indices by counting
    from the end of the array; `indexOf` yields `-1` for absent elements.
  * `String.prototype.replace` with a string pattern replaces only the
    first occurrence.
  * `Set<number>` keeps insertion order and ignores re-inserted elements;
    `Array.from(set).sort((a, b) => a - b)` sorts ascending.
  * Thrown `Error` values are modelled by `Except String`.
  * PDF loading / page counting (the pdf-lib collaborator) is abstracted
    as an oracle `inspect : SFile → Except String Nat` giving either the
    page count of a file or a load-failure message.

String primitives (`trim`, `split`, `includes`) are given structural
models over `List Char` so that all definitions evaluate by kernel
reduction.
-/

deriving instance DecidableEq for Except

/-- JavaScript `String.prototype.trim`: drop leading and trailing
whitespace. -/
def jsTrim (s : String) : String :=
  ⟨((s.data.dropWhile Char.isWhitespace).reverse.dropWhile Char.isWhitespace).reverse⟩

/-- Splitting a character list on a separator character; the result is
never empty (splitting the empty list gives `[[]]`, as JavaScript
`"".split(sep)` gives `[""]`). -/
def splitCharAux (sep : Char) : List Char → List (List Char)
  | [] => [[]]
  | c :: cs =>
    let rest := splitCharAux sep cs
    if c = sep then [] :: rest
    else
      match rest with
      | [] => [[c]]
      | h :: t => (c :: h) :: t

/-- JavaScript `String.prototype.split` with a one-character separator. -/
def jsSplitChar (s : String) (sep : Char) : List String :=
  (splitCharAux sep s.data).map (fun cs => ⟨cs⟩)

/-- JavaScript `String.prototype.includes` with a one-character needle. -/
def jsContainsChar (s : String) (c : Char) : Bool :=
  s.data.contains c

/-- The longest leading run of decimal digits of a character list
(the digits `parseInt` consumes). -/
def leadingDigits : List Char → List Char
  | [] => []
  | c :: cs => if c.isDigit then c :: leadingDigits cs else []

/-- Numeric value of a digit string, most significant digit first. -/
def digitsVal (ds : List Char) : Nat :=
  ds.foldl (fun n c => n * 10 + (c.toNat - 48)) 0

/-- JavaScript `parseInt(s, 10)` on an already-trimmed string: an optional
sign, then the longest run of decimal digits; `none` models NaN (no digits).
Call sites in the source always trim their argument first. -/
def jsParseInt (s : String) : Option Int :=
  match s.data with
  | [] => none
  | c :: cs =>
    let sign : Int := if c = '-' then -1 else 1
    let body : List Char := if c = '-' ∨ c = '+' then cs else c :: cs
    match leadingDigits body with
    | [] => none
    | d :: ds => some (sign * (digitsVal (d :: ds) : Int))

/-- One comma-separated segment of the page specification, as handled by the
body of the `for` loop in `parsePageRanges` (lines 212–244 of the source):
a segment containing a hyphen is treated as a range via the first two
hyphen-separated pieces (`const [start, end] = segment.split('-').map(...)`),
any other segment as a single page.  Returns the list of page numbers the
segment contributes to the page set. -/
def parseSegment (maxPages : Nat) (segment : String) : Except String (List Nat) :=
  if jsContainsChar segment '-' then
    match (jsSplitChar segment '-').map (fun num => jsParseInt (jsTrim num)) with
    | some s :: some e :: _ =>
      if s < 1 ∨ e > (maxPages : Int) ∨ s > e then
        Except.error ("Page range " ++ segment ++ " is outside valid range (1-" ++
          toString maxPages ++ ")")
      else
        Except.ok (List.range' s.toNat (e.toNat + 1 - s.toNat))
    | _ =>
      Except.error ("Invalid page range: " ++ segment)
  else
    match jsParseInt (jsTrim segment) with
    | none => Except.error ("Invalid page number: " ++ segment)
    | some page =>
      if page < 1 ∨ page > (maxPages : Int) then
        Except.error ("Page " ++ toString page ++ " is outside valid range (1-" ++
          toString maxPages ++ ")")
      else
        Except.ok [page.toNat]

/-- `pageSet.add(p)` on a JavaScript `Set<number>` held as its
insertion-ordered element list. -/
def setAdd (acc : List Nat) (p : Nat) : List Nat :=
  if p ∈ acc then acc else acc ++ [p]

/-- The loop of `parsePageRanges`: fold the segments into the accumulated
`Set<number>`, aborting at the first bad segment. -/
def collectSegments (maxPages : Nat) : List String → List Nat → Except String (List Nat)
  | [], acc => Except.ok acc
  | seg :: rest, acc =>
    match parseSegment maxPages seg with
    | Except.error e => Except.error e
    | Except.ok pages => collectSegments maxPages rest (pages.foldl setAdd acc)

/-- `parsePageRanges(input, maxPages)` (source lines 204–248): empty or
whitespace-only input yields `[]`; otherwise the input is split on commas,
each segment trimmed and processed, and the accumulated page set is
returned sorted ascending. -/
def parsePageRanges (input : String) (maxPages : Nat) : Except String (List Nat) :=
  if jsTrim input = "" then Except.ok []
  else
    match collectSegments maxPages ((jsSplitChar input ',').map jsTrim) [] with
    | Except.error e => Except.error e
    | Except.ok pageSet => Except.ok (pageSet.insertionSort (· ≤ ·))

/-- A source file handle: JavaScript object identity is modelled by the
`fid` field (two distinct `File` objects never compare `===`-equal, even
when their names coincide); `name` is the display name used as the
de-duplication key. -/
structure SFile where
  fid : Nat
  name : String
deriving DecidableEq, Repr

/-- The component state of `PdfOperations.svelte` (source lines 4–15),
restricted to the fields the modelled operations read or write.
`mergedPdf` and `splitPdf` hold opaque byte buffers in the source and are
modelled as mere presence flags. -/
structure PdfState where
  files : List SFile
  mergedPdf : Option Unit
  splitPdf : Option Unit
  startPage : Nat
  endPage : Nat
  totalPages : Nat
  error : Option String
  hasProcessedFirstFile : Bool
  pageRangeInput : String
deriving DecidableEq, Repr

/-- The initial component state. -/
def initState : PdfState :=
  { files := []
    mergedPdf := none
    splitPdf := none
    startPage := 1
    endPage := 1
    totalPages := 0
    error := none
    hasProcessedFirstFile := false
    pageRangeInput := "" }

/-- `resetAll` (source lines 17–34), minus the DOM file-input clearing. -/
def resetAll (_st : PdfState) : PdfState := initState

/-- `resetPdfState` (source lines 330–338): clears the derived split/merge
state but touches neither `files` nor `error`. -/
def resetPdfState (st : PdfState) : PdfState :=
  { st with
      mergedPdf := none
      splitPdf := none
      startPage := 1
      endPage := 1
      totalPages := 0
      pageRangeInput := ""
      hasProcessedFirstFile := false }

/-- `updateSplitInfo` (source lines 340–350): re-inspect a file for its
page count and refresh the derived split fields, reporting a read error
on failure. -/
def updateSplitInfo (inspect : SFile → Except String Nat) (st : PdfState)
    (file : SFile) : PdfState :=
  match inspect file with
  | Except.ok n =>
    { st with
        totalPages := n
        endPage := n
        pageRangeInput := "1-" ++ toString n }
  | Except.error msg => { st with error := some ("Error reading PDF: " ++ msg) }

/-- `processNewFiles` (source lines 65–101).  Note the source's final
`error = null` (line 100) runs unconditionally after the inspection
`try`/`catch`, so it also erases an error the `catch` just set. -/
def processNewFiles (inspect : SFile → Except String Nat) (st : PdfState)
    (newFiles : List SFile) : PdfState :=
  if newFiles.length = 0 then st
  else
    let existingFileNames := st.files.map (fun f => f.name)
    let uniqueNewFiles :=
      newFiles.filter (fun f => !decide (f.name ∈ existingFileNames))
    if uniqueNewFiles.length = 0 then
      { st with error := some "All selected files are already added. Duplicate filenames are not allowed." }
    else
      let st1 : PdfState := { st with files := st.files ++ uniqueNewFiles }
      let firstCond : Bool :=
        st1.files.length == 1 ||
          (!st1.hasProcessedFirstFile && decide (st1.files.length > 0))
      let st2 :=
        if firstCond then
          match st1.files with
          | [] => st1
          | file :: _ =>
            match inspect file with
            | Except.ok n =>
              { st1 with
                  totalPages := n
                  endPage := n
                  pageRangeInput := "1-" ++ toString n
                  hasProcessedFirstFile := true }
            | Except.error msg =>
              { st1 with error := some ("Error reading PDF: " ++ msg) }
        else st1
      { st2 with error := none }

/-- `removeFile` (source lines 316–328).  The first-element check
`fileToRemove === files[0]` reads the already-filtered array. -/
def removeFile (inspect : SFile → Except String Nat) (st : PdfState)
    (fileToRemove : SFile) : PdfState :=
  let files1 := st.files.filter (fun f => !decide (f = fileToRemove))
  let st1 : PdfState := { st with files := files1 }
  let st2 :=
    match files1 with
    | [] => st1
    | f0 :: _ => if fileToRemove = f0 then updateSplitInfo inspect st1 f0 else st1
  if st2.files.length = 0 then resetPdfState st2 else st2

/-- JavaScript `Array.prototype.indexOf` under strict equality: the
0-based index of the first occurrence, `-1` when absent. -/
def jsIndexOf (l : List SFile) (x : SFile) : Int :=
  if x ∈ l then (l.indexOf x : Int) else -1

/-- The actual start index used by `Array.prototype.splice`: a negative
start counts from the end of the array (clamped at 0), a non-negative
start is clamped to the length. -/
def jsSpliceIdx (len : Nat) (start : Int) : Nat :=
  if start < 0 then ((len : Int) + start).toNat else min start.toNat len

/-- JavaScript `arr.splice(start, 1)`: remove (at most) one element. -/
def jsSpliceRemoveOne (l : List SFile) (start : Int) : List SFile :=
  let i := jsSpliceIdx l.length start
  l.take i ++ l.drop (i + 1)

/-- JavaScript `arr.splice(start, 0, x)`: insert one element. -/
def jsSpliceInsert (l : List SFile) (start : Int) (x : SFile) : List SFile :=
  let i := jsSpliceIdx l.length start
  l.take i ++ x :: l.drop i

/-- `handleDrop` (source lines 46–57): the reorder gesture, with
`draggedFile` passed explicitly (it is component state set by
`handleDragStart` and cleared on drop). -/
def handleDrop (st : PdfState) (draggedFile : Option SFile)
    (targetFile : SFile) : PdfState :=
  match draggedFile with
  | none => st
  | some dragged =>
    if dragged = targetFile then st
    else
      let draggedIndex := jsIndexOf st.files dragged
      let targetIndex := jsIndexOf st.files targetFile
      let files1 := jsSpliceRemoveOne st.files draggedIndex
      let files2 := jsSpliceInsert files1 targetIndex dragged
      { st with files := files2 }

/-- `splitPdfAtPages` (source lines 250–290), with the pdf-lib load
abstracted by `inspect` and the extraction itself (copyPages / save /
download, which the source performs only after all checks pass) returned
as the list of 0-based page indices handed to `copyPages`; `none` means
no extraction took place. -/
def splitPdfAtPages (inspect : SFile → Except String Nat) (st : PdfState) :
    PdfState × Option (List Nat) :=
  let st0 : PdfState := { st with error := none }
  if st0.files.length ≠ 1 then
    ({ st0 with error := some "Please select exactly one PDF file to split" }, none)
  else
    match st0.files with
    | [] => (st0, none)
    | file :: _ =>
      match inspect file with
      | Except.error msg =>
        ({ st0 with error := some ("Error splitting PDF: " ++ msg) }, none)
      | Except.ok total =>
        match parsePageRanges st0.pageRangeInput total with
        | Except.error msg => ({ st0 with error := some msg }, none)
        | Except.ok selectedPages =>
          if selectedPages.length = 0 then
            ({ st0 with error := some "Please select at least one page" }, none)
          else
            (st0, some (selectedPages.map (fun p => p - 1)))

/-- Remove the first occurrence of `pat` from a character list
(JavaScript `String.prototype.replace` with string pattern and empty
replacement). -/
def removeFirstOcc (pat : List Char) : List Char → List Char
  | [] => []
  | c :: cs =>
    if pat.isPrefixOf (c :: cs) then (c :: cs).drop pat.length
    else c :: removeFirstOcc pat cs

/-- `name.replace(".pdf", "")` as used throughout the source. -/
def stripPdfExt (name : String) : String :=
  ⟨removeFirstOcc ".pdf".data name.data⟩

/-- JavaScript `s.substring(0, n)`. -/
def jsSubstringTo (s : String) (n : Nat) : String :=
  ⟨s.data.take n⟩

/-- JavaScript `Array.prototype.join` with a separator. -/
def joinSep (sep : String) : List String → String
  | [] => ""
  | [x] => x
  | x :: y :: xs => x ++ sep ++ joinSep sep (y :: xs)

/-- The filename computed by `downloadMergedPdf` (source lines 170–201):
base name from the (extension-stripped) source file names, length-limited
to 50 characters, wrapped in `merged_….pdf`. -/
def mergedFileName (files : List SFile) : String :=
  let fileNames :=
    if files.length ≤ 3 then
      joinSep "_" (files.map (fun file => stripPdfExt file.name))
    else
      let firstTwo := joinSep "_" ((files.take 2).map (fun file => stripPdfExt file.name))
      firstTwo ++ "_and_" ++ toString (files.length - 2) ++ "_more"
  let fileNames2 :=
    if fileNames.length > 50 then jsSubstringTo fileNames (50 - 3) ++ "..."
    else fileNames
  "merged_" ++ fileNames2 ++ ".pdf"

/-- Modelled from the spec's filename-derivation words (§4.3): "if ≤3
source files, join all names (extension stripped) with underscores; if
>3, join the first two names with underscores plus `_and_{N-2}_more`;
truncate the resulting name to 50 characters, appending `...` if
truncated; prefix with `merged_`" (and the `.pdf` suffix of the download).
Used as the comparison point for the filename refinement claim. -/
def specMergedName (files : List SFile) : String :=
  let base :=
    if files.length ≤ 3 then
      joinSep "_" (files.map (fun file => stripPdfExt file.name))
    else
      joinSep "_" ((files.take 2).map (fun file => stripPdfExt file.name)) ++
        "_and_" ++ toString (files.length - 2) ++ "_more"
  let limited :=
    if base.length > 50 then jsSubstringTo base 47 ++ "..." else base
  "merged_" ++ limited ++ ".pdf"

/-- The amended failure condition for one trimmed segment: a hyphenated
segment fails when its first two hyphen-separated pieces do not both carry
a leading decimal integer, or the parsed bounds are bad; a plain segment
fails when it carries no leading decimal integer or the parsed page is out
of range.  (Trailing non-digit characters and hyphen pieces beyond the
second are ignored by `parseInt` destructuring, hence absent here.) -/
def segmentBad (maxPages : Nat) (seg : String) : Bool :=
  if jsContainsChar seg '-' then
    match (jsSplitChar seg '-').map (fun num => jsParseInt (jsTrim num)) with
    | some s :: some e :: _ =>
      decide (s < 1) || decide (e > (maxPages : Int)) || decide (s > e)
    | _ => true
  else
    match jsParseInt (jsTrim seg) with
    | some page => decide (page < 1) || decide (page > (maxPages : Int))
    | none => true

/-- The states reachable from the initial state by the UI-triggered
mutations, under the two well-formedness conditions the UI guarantees:
a file-picker batch never contains two files with the same name
(`input.files` of a native picker), and a drag gesture always starts on
an entry of the rendered file list. -/
inductive Reachable : PdfState → Prop where
  | init : Reachable initState
  | add (st : PdfState) (inspect : SFile → Except String Nat)
      (batch : List SFile) : Reachable st →
      (batch.map (fun f => f.name)).Nodup →
      Reachable (processNewFiles inspect st batch)
  | remove (st : PdfState) (inspect : SFile → Except String Nat)
      (f : SFile) : Reachable st → Reachable (removeFile inspect st f)
  | reorder (st : PdfState) (dragged : Option SFile) (target : SFile) :
      Reachable st → (∀ d, dragged = some d → d ∈ st.files) →
      Reachable (handleDrop st dragged target)
  | reset (st : PdfState) : Reachable st → Reachable (resetAll st)

/-- Fixture: file `A.pdf` with identity 0. -/
def fA : SFile := ⟨0, "A.pdf"⟩

/-- Fixture: file `B.pdf` with identity 1. -/
def fB : SFile := ⟨1, "B.pdf"⟩

/-- Fixture: file `C.pdf` with identity 2. -/
def fC : SFile := ⟨2, "C.pdf"⟩

/-- Fixture: file `D.pdf` with identity 3, never part of a fixture state. -/
def fD : SFile := ⟨3, "D.pdf"⟩

/-- Fixture: a three-file state `[A, B, C]`. -/
def stABC : PdfState := { initState with files := [fA, fB, fC] }

/-- Fixture: a two-file state `[A, B]` whose first file has been inspected
(5 pages). -/
def stAB5 : PdfState :=
  { initState with
      files := [fA, fB]
      totalPages := 5
      endPage := 5
      pageRangeInput := "1-5"
      hasProcessedFirstFile := true }

/-! ### Lemmas about the page-range parser -/

theorem parseSegment_ok_bounds {maxPages : Nat} {seg : String} {pages : List Nat}
    (h : parseSegment maxPages seg = Except.ok pages) :
    ∀ p ∈ pages, 1 ≤ p ∧ p ≤ maxPages := by
  unfold parseSegment at h
  split at h
  · split at h
    · rename_i s e rest _
      split at h
      · exact absurd h (by simp)
      · rename_i hcond
        push_neg at hcond
        obtain ⟨hs1, hse⟩ := hcond
        obtain ⟨he, hle⟩ := hse
        injection h with h
        subst h
        intro p hp
        rw [List.mem_range'_1] at hp
        have hsn : 1 ≤ s.toNat := by omega
        have hen : e.toNat ≤ maxPages := by omega
        have hsen : s.toNat ≤ e.toNat := by omega
        omega
    · exact absurd h (by simp)
  · split at h
    · exact absurd h (by simp)
    · rename_i page _
      split at h
      · exact absurd h (by simp)
      · rename_i hcond
        push_neg at hcond
        injection h with h
        subst h
        intro p hp
        rw [List.mem_singleton] at hp
        subst hp
        constructor
        · omega
        · omega

theorem mem_foldl_setAdd (pages : List Nat) :
    ∀ (acc : List Nat) (p : Nat),
      p ∈ pages.foldl setAdd acc ↔ p ∈ acc ∨ p ∈ pages := by
  induction pages with
  | nil => intro acc p; simp
  | cons q rest ih =>
    intro acc p
    rw [List.foldl_cons, ih]
    unfold setAdd
    split
    · rename_i hq
      constructor
      · rintro (h | h)
        · exact Or.inl h
        · exact Or.inr (List.mem_cons_of_mem _ h)
      · rintro (h | h)
        · exact Or.inl h
        · rcases List.mem_cons.mp h with h | h
          · exact Or.inl (h ▸ hq)
          · exact Or.inr h
    · simp only [List.mem_append, List.mem_singleton, List.mem_cons]
      tauto

theorem nodup_foldl_setAdd (pages : List Nat) :
    ∀ (acc : List Nat), acc.Nodup → (pages.foldl setAdd acc).Nodup := by
  induction pages with
  | nil => intro acc h; exact h
  | cons q rest ih =>
    intro acc h
    rw [List.foldl_cons]
    apply ih
    unfold setAdd
    split
    · exact h
    · rename_i hq
      rw [List.nodup_append]
      refine ⟨h, List.nodup_singleton q, ?_⟩
      intro a hmem heq
      rw [List.mem_singleton] at heq
      exact hq (heq ▸ hmem)

theorem collectSegments_ok_bounds {maxPages : Nat} :
    ∀ (segs : List String) (acc out : List Nat),
      collectSegments maxPages segs acc = Except.ok out →
      (∀ p ∈ acc, 1 ≤ p ∧ p ≤ maxPages) → ∀ p ∈ out, 1 ≤ p ∧ p ≤ maxPages := by
  intro segs
  induction segs with
  | nil =>
    intro acc out h hacc
    injection h with h
    exact h ▸ hacc
  | cons seg rest ih =>
    intro acc out h hacc
    unfold collectSegments at h
    split at h
    · exact absurd h (by simp)
    · rename_i pages hseg
      refine ih _ _ h ?_
      intro p hp
      rcases (mem_foldl_setAdd pages acc p).mp hp with hmem | hmem
      · exact hacc p hmem
      · exact parseSegment_ok_bounds hseg p hmem

theorem collectSegments_ok_nodup {maxPages : Nat} :
    ∀ (segs : List String) (acc out : List Nat),
      collectSegments maxPages segs acc = Except.ok out →
      acc.Nodup → out.Nodup := by
  intro segs
  induction segs with
  | nil =>
    intro acc out h hacc
    injection h with h
    exact h ▸ hacc
  | cons seg rest ih =>
    intro acc out h hacc
    unfold collectSegments at h
    split at h
    · exact absurd h (by simp)
    · rename_i pages _
      exact ih _ _ h (nodup_foldl_setAdd pages acc hacc)

/-- Claim C1: whenever `parsePageRanges` succeeds (with a non-empty
result), the returned page selection is strictly increasing, free of
duplicates, and contained in `[1, maxPages]`; moreover
`parse("1-1", 10) = [1]`, `parse("3,1,2", 10) = [1,2,3]`, and
`parse("1-3,2-4", 10) = [1,2,3,4]`. -/
theorem claim1_parse_sorted_nodup_bounded :
    (∀ (input : String) (maxPages : Nat) (l : List Nat),
        parsePageRanges input maxPages = Except.ok l → l ≠ [] →
        List.Sorted (· < ·) l ∧ l.Nodup ∧ ∀ p ∈ l, 1 ≤ p ∧ p ≤ maxPages) ∧
      parsePageRanges "1-1" 10 = Except.ok [1] ∧
      parsePageRanges "3,1,2" 10 = Except.ok [1, 2, 3] ∧
      parsePageRanges "1-3,2-4" 10 = Except.ok [1, 2, 3, 4] := by
  constructor
  · intro input maxPages l hok _hne
    unfold parsePageRanges at hok
    split at hok
    · injection hok with h
      subst h
      exact ⟨List.sorted_nil, List.nodup_nil, by simp⟩
    · split at hok
      · exact absurd hok (by simp)
      · rename_i pageSet hcollect
        injection hok with h
        subst h
        have hnd : pageSet.Nodup :=
          collectSegments_ok_nodup _ _ _ hcollect List.nodup_nil
        have hbounds : ∀ p ∈ pageSet, 1 ≤ p ∧ p ≤ maxPages :=
          collectSegments_ok_bounds _ _ _ hcollect (by intro p hp; cases hp)
        have hnd2 : (pageSet.insertionSort (· ≤ ·)).Nodup :=
          ((List.perm_insertionSort _ _).nodup_iff).mpr hnd
        refine ⟨(List.sorted_insertionSort _ _).lt_of_le hnd2, hnd2, ?_⟩
        intro p hp
        exact hbounds p ((List.mem_insertionSort _).mp hp)
  · exact ⟨by decide, by decide, by decide⟩

/-- Witness for C1: the general part applied to the concrete parse of
`"3,1,2"` against 10 pages. -/
theorem claim1_witness :
    List.Sorted (· < ·) [1, 2, 3] ∧ [1, 2, 3].Nodup ∧
      ∀ p ∈ [1, 2, 3], 1 ≤ p ∧ p ≤ 10 :=
  claim1_parse_sorted_nodup_bounded.1 "3,1,2" 10 [1, 2, 3] (by decide) (by decide)

theorem parseSegment_error_iff (maxPages : Nat) (seg : String) :
    (∃ e, parseSegment maxPages seg = Except.error e) ↔
      segmentBad maxPages seg = true := by
  unfold parseSegment segmentBad
  by_cases hc : jsContainsChar seg '-' = true
  · rw [if_pos hc, if_pos hc]
    rcases hm : (jsSplitChar seg '-').map (fun num => jsParseInt (jsTrim num)) with
      _ | ⟨o1, rest⟩
    · simp
    · rcases o1 with _ | s
      · simp
      · rcases rest with _ | ⟨o2, rest2⟩
        · simp
        · rcases o2 with _ | e
          · simp
          · by_cases hcond : s < 1 ∨ e > (maxPages : Int) ∨ s > e
            · simp only [if_pos hcond, Bool.or_eq_true, decide_eq_true_eq]
              rw [or_assoc]
              exact iff_of_true ⟨_, rfl⟩ hcond
            · simp only [if_neg hcond, Bool.or_eq_true, decide_eq_true_eq]
              rw [or_assoc]
              exact iff_of_false (by simp) hcond
  · rw [if_neg hc, if_neg hc]
    rcases hm : jsParseInt (jsTrim seg) with _ | page
    · simp
    · by_cases hcond : page < 1 ∨ page > (maxPages : Int)
      · simp only [if_pos hcond, Bool.or_eq_true, decide_eq_true_eq]
        exact iff_of_true ⟨_, rfl⟩ hcond
      · simp only [if_neg hcond, Bool.or_eq_true, decide_eq_true_eq]
        exact iff_of_false (by simp) hcond

theorem collectSegments_error_iff {maxPages : Nat} :
    ∀ (segs : List String) (acc : List Nat),
      (∃ e, collectSegments maxPages segs acc = Except.error e) ↔
        ∃ seg ∈ segs, segmentBad maxPages seg = true := by
  intro segs
  induction segs with
  | nil => intro acc; simp [collectSegments]
  | cons seg rest ih =>
    intro acc
    unfold collectSegments
    cases hseg : parseSegment maxPages seg with
    | error e =>
      simp only
      constructor
      · intro _
        exact ⟨seg, List.mem_cons_self _ _, (parseSegment_error_iff _ _).mp ⟨e, hseg⟩⟩
      · intro _; exact ⟨e, rfl⟩
    | ok pages =>
      simp only
      rw [ih]
      have hgood : segmentBad maxPages seg = false := by
        rcases hbad : segmentBad maxPages seg with _ | _
        · rfl
        · exfalso
          obtain ⟨e, he⟩ := (parseSegment_error_iff maxPages seg).mpr hbad
          rw [hseg] at he
          exact absurd he (by simp)
      constructor
      · rintro ⟨s, hs, hbad⟩
        exact ⟨s, List.mem_cons_of_mem _ hs, hbad⟩
      · rintro ⟨s, hs, hbad⟩
        rcases List.mem_cons.mp hs with h | h
        · subst h
          rw [hgood] at hbad
          exact absurd hbad (by simp)
        · exact ⟨s, h, hbad⟩

/-- Claim C2 (amended): for a non-whitespace input, `parsePageRanges`
fails exactly when some trimmed comma-separated segment is bad in the
sense of `segmentBad`: a hyphenated segment whose first two
hyphen-separated pieces do not both carry a leading decimal integer, or
whose parsed bounds violate `1 ≤ start`, `end ≤ maxPages`, `start ≤ end`;
or a plain segment without a leading decimal integer or with its parsed
page outside `[1, maxPages]`.  (The original claim's "any non-numeric
content fails" is too strong: `parseInt` ignores trailing non-digits and
hyphen pieces beyond the second, see the counterexample.) -/
theorem claim2_parse_error_characterization :
    ∀ (input : String) (maxPages : Nat), jsTrim input ≠ "" →
      ((∃ e, parsePageRanges input maxPages = Except.error e) ↔
        ∃ seg ∈ (jsSplitChar input ',').map jsTrim, segmentBad maxPages seg = true) := by
  intro input maxPages htrim
  unfold parsePageRanges
  rw [if_neg htrim,
    ← collectSegments_error_iff ((jsSplitChar input ',').map jsTrim) ([] : List Nat)]
  cases collectSegments maxPages ((jsSplitChar input ',').map jsTrim) [] with
  | error e => simp
  | ok pageSet => simp

/-- Counterexample to C2 as stated: the segment `"3a"` contains no hyphen
and is not a bare non-negative integer (not all of its characters are
digits), so the claim demands an `InvalidRangeError`; yet the code
succeeds with `[3]`, because JavaScript `parseInt` consumes the leading
digits and ignores the rest. -/
theorem claim2_counterexample :
    jsContainsChar "3a" '-' = false ∧ "3a".data.all Char.isDigit = false ∧
      parsePageRanges "3a" 10 = Except.ok [3] := by decide

/-- Witness for C2: applied to `"0-2"` with 10 pages (a range with
`start < 1`), the characterization yields the failure the claim's spec
lines promise. -/
theorem claim2_witness : ∃ e, parsePageRanges "0-2" 10 = Except.error e :=
  (claim2_parse_error_characterization "0-2" 10 (by decide)).mpr
    ⟨"0-2", by decide, by decide⟩

/-! ### Lemmas about the file-set operations -/

theorem removeFile_eq (inspect : SFile → Except String Nat) (st : PdfState)
    (f : SFile) :
    removeFile inspect st f =
      if (st.files.filter (fun g => !decide (g = f))).length = 0 then
        resetPdfState { st with files := st.files.filter (fun g => !decide (g = f)) }
      else { st with files := st.files.filter (fun g => !decide (g = f)) } := by
  unfold removeFile
  cases hf : st.files.filter (fun g => !decide (g = f)) with
  | nil => simp [hf]
  | cons f0 t =>
    have hne : ¬(f = f0) := by
      have hmem : f0 ∈ st.files.filter (fun g => !decide (g = f)) := by
        rw [hf]
        exact List.mem_cons_self _ _
      rw [List.mem_filter] at hmem
      intro h
      rw [← h] at hmem
      simp at hmem
    simp [hf, hne]

/-- Claim C3: removing the first file of the two-file set `[A, B]` yields
`[B]`, but the derived page state is NOT refreshed from `B` — the source's
check `fileToRemove === files[0]` reads the already-filtered array, so
`updateSplitInfo` never runs: `totalPages` stays at `A`'s 5 pages and
`pageRangeInput` stays `"1-5"`, although an actual re-inspection of `B`
(7 pages) would have set `totalPages = 7`. -/
theorem claim3_remove_first_skips_reinspection :
    (removeFile (fun _ => Except.ok 7) stAB5 fA).files = [fB] ∧
      (removeFile (fun _ => Except.ok 7) stAB5 fA).totalPages = 5 ∧
      (removeFile (fun _ => Except.ok 7) stAB5 fA).pageRangeInput = "1-5" ∧
      (updateSplitInfo (fun _ => Except.ok 7)
          { stAB5 with files := [fB] } fB).totalPages = 7 := by decide

/-- Claim C10: removing a file that is not in the (non-empty) file set
leaves the whole state unchanged — for every inspection oracle, so no
re-inspection or reset is observable. -/
theorem claim10_remove_absent_noop :
    ∀ (inspect : SFile → Except String Nat) (st : PdfState) (f : SFile),
      f ∉ st.files → st.files ≠ [] → removeFile inspect st f = st := by
  intro inspect st f hnot hne
  have hfil : st.files.filter (fun g => !decide (g = f)) = st.files := by
    apply List.filter_eq_self.mpr
    intro a ha
    simp only [Bool.not_eq_true', decide_eq_false_iff_not]
    exact fun h => hnot (h ▸ ha)
  rw [removeFile_eq, hfil, if_neg (fun h => hne (List.length_eq_zero.mp h))]

/-- Witness for C10: removing the absent file `D` from the three-file
state leaves it untouched. -/
theorem claim10_witness :
    removeFile (fun _ => Except.ok 3) stABC fD = stABC :=
  claim10_remove_absent_noop (fun _ => Except.ok 3) stABC fD (by decide)
    (by decide)

theorem processNewFiles_files_append (inspect : SFile → Except String Nat)
    (st : PdfState) (newFiles : List SFile) (hne : newFiles ≠ [])
    (hsome : newFiles.filter
      (fun f => !decide (f.name ∈ st.files.map (fun g => g.name))) ≠ []) :
    (processNewFiles inspect st newFiles).files =
      st.files ++ newFiles.filter
        (fun f => !decide (f.name ∈ st.files.map (fun g => g.name))) := by
  unfold processNewFiles
  rw [if_neg (fun h => hne (List.length_eq_zero.mp h))]
  simp only
  rw [if_neg (fun h => hsome (List.length_eq_zero.mp h))]
  split
  · split
    · rfl
    · split
      · rfl
      · rfl
  · rfl

/-- Claim C4: adding a non-empty batch where every incoming name is
already present fails with the duplicate-files message and leaves the
state otherwise untouched; in every other case exactly the incoming files
with fresh names are appended, in their incoming order. -/
theorem claim4_add_dedup_by_name :
    ∀ (inspect : SFile → Except String Nat) (st : PdfState)
      (newFiles : List SFile), newFiles ≠ [] →
      ((∀ f ∈ newFiles, f.name ∈ st.files.map (fun g => g.name)) →
        processNewFiles inspect st newFiles =
          { st with error := some "All selected files are already added. Duplicate filenames are not allowed." }) ∧
      ((∃ f ∈ newFiles, f.name ∉ st.files.map (fun g => g.name)) →
        (processNewFiles inspect st newFiles).files =
          st.files ++ newFiles.filter
            (fun f => !decide (f.name ∈ st.files.map (fun g => g.name)))) := by
  intro inspect st newFiles hne
  constructor
  · intro halldup
    have hnil : newFiles.filter
        (fun f => !decide (f.name ∈ st.files.map (fun g => g.name))) = [] := by
      apply List.filter_eq_nil_iff.mpr
      intro f hf
      simp only [Bool.not_eq_true', decide_eq_false_iff_not, not_not]
      exact halldup f hf
    unfold processNewFiles
    rw [if_neg (fun h => hne (List.length_eq_zero.mp h))]
    simp only
    rw [if_pos (by rw [hnil]; rfl)]
  · intro ⟨f, hf, hfresh⟩
    apply processNewFiles_files_append inspect st newFiles hne
    apply List.ne_nil_of_mem (a := f)
    rw [List.mem_filter]
    exact ⟨hf, by simpa using hfresh⟩

/-- Witness for C4: adding the one file `⟨9, "A.pdf"⟩`, whose name
duplicates the existing `A.pdf`, to the `[A, B]` state reports the
duplicate error and changes nothing else; adding the fresh `D.pdf`
appends it. -/
theorem claim4_witness :
    processNewFiles (fun _ => Except.ok 5) stAB5 [⟨9, "A.pdf"⟩] =
        { stAB5 with error := some "All selected files are already added. Duplicate filenames are not allowed." } ∧
      (processNewFiles (fun _ => Except.ok 5) stAB5 [fD]).files =
        [fA, fB, fD] :=
  ⟨(claim4_add_dedup_by_name (fun _ => Except.ok 5) stAB5 [⟨9, "A.pdf"⟩]
      (by decide)).1 (by decide),
    by
      rw [(claim4_add_dedup_by_name (fun _ => Except.ok 5) stAB5 [fD]
        (by decide)).2 ⟨fD, by decide, by decide⟩]
      decide⟩

theorem processNewFiles_dup_files (inspect : SFile → Except String Nat)
    (st : PdfState) (newFiles : List SFile) (hne : newFiles ≠ [])
    (hnil : newFiles.filter
      (fun f => !decide (f.name ∈ st.files.map (fun g => g.name))) = []) :
    (processNewFiles inspect st newFiles).files = st.files := by
  unfold processNewFiles
  rw [if_neg (fun h => hne (List.length_eq_zero.mp h))]
  simp only
  rw [if_pos (by rw [hnil]; rfl)]

theorem jsSpliceInsert_perm (l : List SFile) (i : Int) (x : SFile) :
    (jsSpliceInsert l i x).Perm (x :: l) := by
  unfold jsSpliceInsert
  refine List.perm_middle.trans ?_
  rw [List.take_append_drop]

theorem perm_cons_spliceRemove {l : List SFile} {d : SFile} (hd : d ∈ l) :
    l.Perm (d :: jsSpliceRemoveOne l (jsIndexOf l d)) := by
  unfold jsSpliceRemoveOne jsIndexOf
  rw [if_pos hd]
  have hlt : l.indexOf d < l.length := List.indexOf_lt_length.mpr hd
  have hidx : jsSpliceIdx l.length ((l.indexOf d : Nat) : Int) = l.indexOf d := by
    unfold jsSpliceIdx
    rw [if_neg (by omega)]
    have : ((l.indexOf d : Nat) : Int).toNat = l.indexOf d := by omega
    rw [this]
    exact min_eq_left (le_of_lt hlt)
  rw [hidx]
  conv_lhs => rw [← List.take_append_drop (l.indexOf d) l]
  rw [List.drop_eq_getElem_cons hlt, List.getElem_indexOf hlt]
  exact List.perm_middle

theorem handleDrop_files_perm (st : PdfState) (d target : SFile)
    (hd : d ∈ st.files) :
    ((handleDrop st (some d) target).files).Perm st.files := by
  by_cases heq : d = target
  · have h : handleDrop st (some d) target = st := by
      unfold handleDrop
      simp [heq]
    rw [h]
  · have h : (handleDrop st (some d) target).files =
        jsSpliceInsert (jsSpliceRemoveOne st.files (jsIndexOf st.files d))
          (jsIndexOf st.files target) d := by
      unfold handleDrop
      simp [heq]
    rw [h]
    exact (jsSpliceInsert_perm _ _ _).trans (perm_cons_spliceRemove hd).symm

/-- Claim C5 (amended): starting from the empty session, every state
reachable by add / remove / reorder / reset keeps the display names of the
file set duplicate-free — provided each added batch itself has pairwise
distinct names and each drag starts from a file of the current set, as the
UI guarantees.  (The original claim's "including a batch that itself
contains two files with the same name" is false on the code: the
duplicate filter only checks names already in the set, see the
counterexample.) -/
theorem claim5_names_nodup_invariant :
    ∀ st : PdfState, Reachable st →
      (st.files.map (fun f => f.name)).Nodup := by
  intro st h
  induction h with
  | init => exact List.nodup_nil
  | add st' inspect batch _ hbatch ih =>
    by_cases hne : batch = []
    · subst hne
      simpa [processNewFiles] using ih
    · by_cases hsome : batch.filter
          (fun f => !decide (f.name ∈ st'.files.map (fun g => g.name))) = []
      · rw [processNewFiles_dup_files inspect st' batch hne hsome]
        exact ih
      · rw [processNewFiles_files_append inspect st' batch hne hsome,
          List.map_append, List.nodup_append]
        refine ⟨ih, ?_, ?_⟩
        · exact List.Nodup.sublist
            (List.Sublist.map _ (List.filter_sublist _)) hbatch
        · intro a ha hafilter
          obtain ⟨f, hf, rfl⟩ := List.mem_map.mp hafilter
          rw [List.mem_filter] at hf
          have hfresh := hf.2
          simp only [Bool.not_eq_true', decide_eq_false_iff_not] at hfresh
          exact hfresh ha
  | remove st' inspect f _ ih =>
    rw [removeFile_eq]
    split
    · simp only [resetPdfState]
      exact List.Nodup.sublist
        (List.Sublist.map _ (List.filter_sublist _)) ih
    · exact List.Nodup.sublist
        (List.Sublist.map _ (List.filter_sublist _)) ih
  | reorder st' dragged target _ hdr ih =>
    cases dragged with
    | none => simpa [handleDrop] using ih
    | some d =>
      exact (((handleDrop_files_perm st' d target (hdr d rfl)).map _).nodup_iff).mpr ih
  | reset st' _ ih => exact List.nodup_nil

/-- Counterexample to C5 as stated: an incoming batch holding two distinct
files that share the name `a.pdf`, added to the empty session, is appended
wholesale — the duplicate check consults only names already in the set —
so the resulting file set carries a duplicated display name. -/
theorem claim5_counterexample :
    ¬ (((processNewFiles (fun _ => Except.ok 1) initState
        [⟨0, "a.pdf"⟩, ⟨1, "a.pdf"⟩]).files.map (fun f => f.name)).Nodup) := by
  decide

/-- Witness for C5: one well-formed add of `[A, B]` from the initial
state keeps the names duplicate-free. -/
theorem claim5_witness :
    (((processNewFiles (fun _ => Except.ok 3) initState [fA, fB]).files.map
      (fun f => f.name)).Nodup) :=
  claim5_names_nodup_invariant _
    (Reachable.add initState (fun _ => Except.ok 3) [fA, fB] Reachable.init
      (by decide))

/-- Claim C6: when the first-ever added file fails page-count inspection,
the file is kept but the state ends with `error = none` — the source's
unconditional `error = null` (line 100) erases the message the `catch`
just stored, so no inspection error is visible to the user afterwards
(the claim expects it to be reported); the error-clearing half of the
claim (third conjunct: a successful inspection clears a previously shown
error) does hold. -/
theorem claim6_inspection_error_swallowed :
    (processNewFiles (fun _ => Except.error "boom") initState [fA]).files =
        [fA] ∧
      (processNewFiles (fun _ => Except.error "boom") initState [fA]).error =
        none ∧
      (processNewFiles (fun _ => Except.ok 5)
        { initState with error := some "old failure" } [fA]).error = none := by
  decide

theorem insertIdx_eq_take_cons_drop {α : Type} (x : α) :
    ∀ (n : Nat) (l : List α), n ≤ l.length →
      l.insertIdx n x = l.take n ++ x :: l.drop n
  | 0, _, _ => rfl
  | n + 1, [], h => absurd h (by simp)
  | n + 1, a :: l, h => by
    simp only [List.insertIdx_succ_cons, List.take_succ_cons,
      List.drop_succ_cons, List.cons_append]
    rw [insertIdx_eq_take_cons_drop x n l (by simpa using h)]

theorem handleDrop_files_present (st : PdfState) (d t : SFile)
    (hd : d ∈ st.files) (ht : t ∈ st.files) (hne : d ≠ t) :
    (handleDrop st (some d) t).files =
      (st.files.eraseIdx (st.files.indexOf d)).insertIdx
        (st.files.indexOf t) d := by
  have h : (handleDrop st (some d) t).files =
      jsSpliceInsert (jsSpliceRemoveOne st.files (jsIndexOf st.files d))
        (jsIndexOf st.files t) d := by
    unfold handleDrop
    simp [hne]
  rw [h]
  have hdlt : st.files.indexOf d < st.files.length :=
    List.indexOf_lt_length.mpr hd
  have htlt : st.files.indexOf t < st.files.length :=
    List.indexOf_lt_length.mpr ht
  have hrem : jsSpliceRemoveOne st.files (jsIndexOf st.files d) =
      st.files.eraseIdx (st.files.indexOf d) := by
    unfold jsSpliceRemoveOne jsIndexOf jsSpliceIdx
    rw [if_pos hd, if_neg (by omega)]
    have h1 : ((st.files.indexOf d : Nat) : Int).toNat = st.files.indexOf d := by
      omega
    rw [h1, min_eq_left (le_of_lt hdlt), List.eraseIdx_eq_take_drop_succ]
  rw [hrem]
  have hlen : (st.files.eraseIdx (st.files.indexOf d)).length =
      st.files.length - 1 := by
    rw [List.length_eraseIdx, if_pos hdlt]
  have htle : st.files.indexOf t ≤
      (st.files.eraseIdx (st.files.indexOf d)).length := by omega
  have hjt : jsIndexOf st.files t = ((st.files.indexOf t : Nat) : Int) := by
    unfold jsIndexOf
    rw [if_pos ht]
  rw [hjt]
  unfold jsSpliceInsert jsSpliceIdx
  rw [if_neg (by omega)]
  have h2 : ((st.files.indexOf t : Nat) : Int).toNat = st.files.indexOf t := by
    omega
  rw [h2, min_eq_left htle, ← insertIdx_eq_take_cons_drop _ _ _ htle]

/-- Claim C7 (amended): the reorder gesture is a no-op when no drag is in
progress or dragged and target are the same identity; when both are
present in the set and distinct, the dragged file is removed from its
position and reinserted at the target's pre-removal index (leaving all
other relative orders intact), so `[A,B,C]` with `A` dropped onto `C`
yields `[B,C,A]`.  (The original claim's "no-op when either is absent" is
false on the code: `indexOf` then yields `-1` and `splice(-1, …)` operates
at the end of the array, see the counterexample.) -/
theorem claim7_reorder_semantics :
    (∀ (st : PdfState) (d : SFile), handleDrop st (some d) d = st) ∧
      (∀ (st : PdfState) (t : SFile), handleDrop st none t = st) ∧
      (∀ (st : PdfState) (d t : SFile), d ∈ st.files → t ∈ st.files →
        d ≠ t →
        (handleDrop st (some d) t).files =
          (st.files.eraseIdx (st.files.indexOf d)).insertIdx
            (st.files.indexOf t) d) ∧
      (handleDrop stABC (some fA) fC).files = [fB, fC, fA] := by
  refine ⟨?_, ?_, handleDrop_files_present, by decide⟩
  · intro st d
    unfold handleDrop
    simp
  · intro st t
    rfl

/-- Counterexample to C7 as stated: dragging the absent file `D` onto `A`
in the two-file state `[A, B]` is not a no-op — `indexOf` yields `-1`, so
`splice(-1, 1)` deletes the last element `B` and the insertion places `D`
at the front, leaving `[D, A]`. -/
theorem claim7_counterexample :
    fD ∉ stAB5.files ∧ (handleDrop stAB5 (some fD) fA).files = [fD, fA] ∧
      (handleDrop stAB5 (some fD) fA).files ≠ stAB5.files := by decide

/-- Witness for C7: the present-and-distinct clause applied to the
three-file fixture, dragging `A` onto `C`. -/
theorem claim7_witness :
    (handleDrop stABC (some fA) fC).files =
      (stABC.files.eraseIdx (stABC.files.indexOf fA)).insertIdx
        (stABC.files.indexOf fC) fA :=
  claim7_reorder_semantics.2.2.1 stABC fA fC (by decide) (by decide)
    (by decide)

/-- Claim C8: an empty or whitespace-only page specification parses
successfully to the empty selection (never an `InvalidRangeError`), and
splitting a single successfully-loaded file under such a specification
fails with the dedicated "Please select at least one page" message while
performing no extraction. -/
theorem claim8_empty_spec_and_split :
    (∀ (input : String) (maxPages : Nat), jsTrim input = "" →
        parsePageRanges input maxPages = Except.ok []) ∧
      (∀ (inspect : SFile → Except String Nat) (st : PdfState) (f : SFile)
          (n : Nat), st.files = [f] → inspect f = Except.ok n →
          jsTrim st.pageRangeInput = "" →
          splitPdfAtPages inspect st =
            ({ st with error := some "Please select at least one page" },
              none)) := by
  constructor
  · intro input maxPages h
    unfold parsePageRanges
    rw [if_pos h]
  · intro inspect st f n hfiles hinspect htrim
    have hparse : parsePageRanges st.pageRangeInput n = Except.ok [] := by
      unfold parsePageRanges
      rw [if_pos htrim]
    unfold splitPdfAtPages
    simp only [hfiles, hinspect, hparse, List.length_singleton]
    norm_num

/-- Witness for C8: the whitespace specification `"  "` on a one-file
state with a 9-page document. -/
theorem claim8_witness :
    splitPdfAtPages (fun _ => Except.ok 9)
        { initState with files := [fA], pageRangeInput := "  " } =
      ({ { initState with files := [fA], pageRangeInput := "  " } with
          error := some "Please select at least one page" }, none) :=
  claim8_empty_spec_and_split.2 (fun _ => Except.ok 9)
    { initState with files := [fA], pageRangeInput := "  " } fA 9 rfl rfl
    (by decide)

/-- Claim C9: the merged-download filename follows the spec's derivation
exactly — all (extension-stripped) names joined by underscores when there
are at most 3 files, the first two plus `_and_{N-2}_more` when more,
50-character truncation with a `...` marker, `merged_` prefix and `.pdf`
suffix — and five files `a.pdf … e.pdf` give
`merged_a_b_and_3_more.pdf`. -/
theorem claim9_merge_filename :
    (∀ files : List SFile, mergedFileName files = specMergedName files) ∧
      mergedFileName [⟨0, "a.pdf"⟩, ⟨1, "b.pdf"⟩, ⟨2, "c.pdf"⟩,
        ⟨3, "d.pdf"⟩, ⟨4, "e.pdf"⟩] = "merged_a_b_and_3_more.pdf" :=
  ⟨fun _ => rfl, by decide⟩

